import Mathlib

/-!
# Verification of the chunked bot-analysis core (poe-bot-tester)

Shallow embedding of `src/app/api/analyze-bot-chunked/route.ts` (the Chunk
Executor, session store and scorecard aggregation) and of the Client
Orchestrator's retry loop (`runChunkedAnalysis` in the page component).

Network-bound check bodies (`executeTest` and its helpers) perform outbound
HTTP calls; their observable effect on one loop iteration of `processChunk`
is a duration, a returned-or-thrown `CheckResult`, and a possible update of
the session's cached metadata.  They are therefore abstracted as a trace
`Nat → Step` giving, for each loop index, that observable effect.  Every
other line of `processChunk` is translated directly.
-/

namespace PoeBot

/-- The five result categories of the scorecard (`SessionData.results` keys,
in declaration order: branding, functionality, usability, fileSupport,
errorHandling). -/
inductive Category
  | branding
  | functionality
  | usability
  | fileSupport
  | errorHandling
deriving DecidableEq, Repr

/-- A check result as constructed by `processChunk` and `executeTest`:
`{ name, status, score?, details }`.  `score` is optional (`score?: number`);
extra fields (`error`, `debugInfo`) carried by some results do not affect the
orchestration logic and are omitted. -/
structure CheckResult where
  name : String
  status : String
  score : Option Int
  details : String
deriving DecidableEq, Repr

/-- Bot metadata as produced by `parseBotPage`. -/
structure BotMetadata where
  name : String
  displayName : String
  description : String
  profilePictureUrl : Option String
  isVerified : Bool
  followerCount : Option Nat
deriving DecidableEq, Repr

/-- Field `SessionData.results`: one ordered collection per category, in the
field order of the source object literal. -/
structure ResultsByCategory where
  branding : List CheckResult
  functionality : List CheckResult
  usability : List CheckResult
  fileSupport : List CheckResult
  errorHandling : List CheckResult
deriving DecidableEq, Repr

def emptyResults : ResultsByCategory := ⟨[], [], [], [], []⟩

def ResultsByCategory.get (r : ResultsByCategory) : Category → List CheckResult
  | .branding => r.branding
  | .functionality => r.functionality
  | .usability => r.usability
  | .fileSupport => r.fileSupport
  | .errorHandling => r.errorHandling

/-- Source `categoryResults.push(result)` — append at the end of the category's
collection. -/
def ResultsByCategory.push (r : ResultsByCategory) (c : Category) (x : CheckResult) : ResultsByCategory :=
  match c with
  | .branding => { r with branding := r.branding ++ [x] }
  | .functionality => { r with functionality := r.functionality ++ [x] }
  | .usability => { r with usability := r.usability ++ [x] }
  | .fileSupport => { r with fileSupport := r.fileSupport ++ [x] }
  | .errorHandling => { r with errorHandling := r.errorHandling ++ [x] }

/-- Source `interface SessionData` of the route. -/
structure SessionData where
  botName : String
  results : ResultsByCategory
  metadata : Option BotMetadata
deriving DecidableEq, Repr

/-- The fresh `SessionData` object created when `sessions.get(sessionId)`
misses (route lines 125-137). -/
def freshSession (botName : String) : SessionData :=
  ⟨botName, emptyResults, none⟩

/-- One entry of `TEST_CHUNKS`. -/
structure Chunk where
  name : String
  tests : List String
  category : Category
deriving DecidableEq, Repr

/-- The static chunk configuration `TEST_CHUNKS` (route lines 34-82). -/
def TEST_CHUNKS : List Chunk := [
  ⟨"metadata", ["Fetch bot metadata", "Parse bot information"], .usability⟩,
  ⟨"branding",
    ["Bot name consistency and formatting",
     "Profile picture appeal and quality",
     "Brand consistency with model family",
     "Official verification and credibility"], .branding⟩,
  ⟨"description",
    ["Description clarity for non-technical users",
     "Advanced behavior documentation",
     "Limitation documentation"], .usability⟩,
  ⟨"files_basic", ["PNG support", "JPEG support", "PDF support"], .fileSupport⟩,
  ⟨"files_advanced", ["GIF support", "HEIC support", "TIFF support", "MP4 support"], .fileSupport⟩,
  ⟨"conversation",
    ["Multi-turn conversation coherence", "Response time performance"], .functionality⟩,
  ⟨"error_handling", ["Helpful error messages"], .errorHandling⟩]

/-- The statically configured check registry: the test lists of all chunks,
concatenated in chunk order. -/
def checkRegistry : List String :=
  TEST_CHUNKS.foldr (fun c acc => c.tests ++ acc) []

/-- JS `Math.round` on an exact rational: round half away from zero is
`⌊q + 1/2⌋` for the nonnegative values arising here (and JS `Math.round`
is `⌊q + 1/2⌋` for every finite value). -/
def jsRound (q : ℚ) : Int := ⌊q + 1/2⌋

/-- Source `testResult.score || 0`: a missing score contributes 0 (a present score
of 0 is also 0, as in the source's truthiness test). -/
def scoreOrZero (r : CheckResult) : Int :=
  match r.score with
  | some s => s
  | none => 0

/-- Source `Object.values(sessionData.results).flat()` — key insertion order. -/
def allResultsOf (r : ResultsByCategory) : List CheckResult :=
  r.branding ++ r.functionality ++ r.usability ++ r.fileSupport ++ r.errorHandling

/-- The final scorecard object (route lines 217-230).
`overallScore = Math.round(allResults.reduce((sum, r) => sum + (r.score || 0), 0) / allResults.length)`.
(The `complete` branch always has at least one accumulated result, so the
JS `0/0 = NaN` case is unreachable; rational division is used here.) -/
structure Scorecard where
  botName : String
  overallScore : Int
  categories : ResultsByCategory
deriving DecidableEq, Repr

def mkScorecard (botName : String) (sess : SessionData) : Scorecard :=
  let allResults := allResultsOf sess.results
  let sum := allResults.foldl (fun acc r => acc + scoreOrZero r) 0
  ⟨botName, jsRound ((sum : ℚ) / (allResults.length : ℚ)), sess.results⟩

/-- Modelled from the spec: "overallScore = round(mean(s1..sk)); a
CheckResult missing a score contributes 0 to the numerator but still counts
in the denominator".  Stated independently of the source's fold so the two
can be compared. -/
def specOverallScore (rs : List CheckResult) : Int :=
  jsRound (((rs.map scoreOrZero).sum : ℚ) / (rs.length : ℚ))

/-- The `ProgressUpdate` events actually emitted by `processChunk`, with the
fields each emission site populates. -/
inductive ProgressUpdate
  | progress (message : String) (progressPct : Int) (currentTest : Nat)
      (totalTests : Nat) (sessionId : String)
  | test_start (category : Category) (testName : String) (message : String)
      (sessionId : String)
  | test_complete (category : Category) (testName : String) (result : CheckResult)
      (sessionId : String)
  | chunk_complete (message : String) (nextChunk : Nat) (sessionId : String)
  | complete (result : Scorecard) (progressPct : Nat) (message : String)
      (sessionId : String)
  | error (message : String) (sessionId : String)
deriving DecidableEq, Repr

/-- The in-memory session map `sessions` (a JS `Map`), as an association
list in insertion order. -/
abbrev Store := List (String × SessionData)

def Store.get (st : Store) (k : String) : Option SessionData :=
  match st with
  | [] => none
  | (k', v) :: rest => if k' = k then some v else Store.get rest k

/-- JS `Map.set`: replace in place if the key exists, else append. -/
def Store.set (st : Store) (k : String) (v : SessionData) : Store :=
  match st with
  | [] => [(k, v)]
  | (k', v') :: rest => if k' = k then (k, v) :: rest else (k', v') :: Store.set rest k v

/-- JS `Map.delete`. -/
def Store.del (st : Store) (k : String) : Store :=
  match st with
  | [] => []
  | (k', v') :: rest => if k' = k then Store.del rest k else (k', v') :: Store.del rest k

/-- The observable effect of one `executeTest` call (network behavior
abstracted): wall-clock milliseconds consumed, the result returned —
`err msg` when the call rejects with message `msg`, caught by
`processChunk`'s `catch` — and the session's cached metadata after the
call returns (only `Fetch bot metadata` ever changes it). -/
inductive StepOutcome
  | ok (r : CheckResult)
  | err (msg : String)
deriving DecidableEq, Repr

structure Step where
  duration : Nat
  outcome : StepOutcome
  metaAfter : Option BotMetadata
deriving DecidableEq, Repr

/-- Time consumed by one loop iteration: the call's duration plus, on
success only, the 200 ms inter-check `setTimeout` (route line 186; the
`catch` branch has no such delay). -/
def stepTime (s : Step) : Nat :=
  s.duration + match s.outcome with
  | .ok _ => 200
  | .err _ => 0

/-- Value of `Date.now() - startTime` at the budget check before loop index `i + k`,
starting from the check before index `i`. -/
def elapsedFrom (trace : Nat → Step) (i : Nat) : Nat → Nat
  | 0 => 0
  | k + 1 => stepTime (trace i) + elapsedFrom trace (i + 1) k

/-- The `CheckResult` that reaches `test_complete` for test `t`: the check's
own result on success, or the synthesized failure object of the `catch`
branch (route lines 189-194). -/
def resultOfStep (t : String) (s : Step) : CheckResult :=
  match s.outcome with
  | .ok r => r
  | .err msg => ⟨t, "failed", some 0, "Error: " ++ msg⟩

/-- Session update of one completed loop iteration: push the result into the
chunk's category and record the metadata cache as `executeTest` left it. -/
def applyStep (category : Category) (t : String) (s : Step) (sess : SessionData) : SessionData :=
  { sess with results := sess.results.push category (resultOfStep t s), metadata := s.metaAfter }

def applySteps (category : Category) (trace : Nat → Step) :
    List String → Nat → SessionData → SessionData
  | [], _, sess => sess
  | t :: rest, i, sess => applySteps category trace rest (i + 1) (applyStep category t (trace i) sess)

/-- The results appended by the iterations for `tests`, starting at loop
index `i`. -/
def resultsFor (trace : Nat → Step) : List String → Nat → List CheckResult
  | [], _ => []
  | t :: rest, i => resultOfStep t (trace i) :: resultsFor trace rest (i + 1)

/-- The `test_start`/`test_complete` events of the iterations for `tests`,
starting at loop index `i`. -/
def eventsFor (sessionId : String) (category : Category) (trace : Nat → Step) :
    List String → Nat → List ProgressUpdate
  | [], _ => []
  | t :: rest, i =>
    .test_start category t ("Testing: " ++ t) sessionId ::
    .test_complete category t (resultOfStep t (trace i)) sessionId ::
    eventsFor sessionId category trace rest (i + 1)

/-- Source `const MAX_CHUNK_TIME = 8000`. -/
def MAX_CHUNK_TIME : Nat := 8000

/-- Result of the per-chunk test loop: events emitted, the session object
after its in-place mutations, the elapsed time at exit, and whether the
loop aborted on the budget check. -/
structure LoopOut where
  events : List ProgressUpdate
  session : SessionData
  elapsed : Nat
  aborted : Bool
deriving Repr

/-- The `for` loop of `processChunk` (route lines 144-209).  Before each
test the elapsed wall-clock time is compared against `MAX_CHUNK_TIME`; on
excess a `chunk_complete` event with `nextChunk = chunkIndex + 1` is emitted
and the loop returns at once.  Otherwise `test_start` is emitted, the check
runs (outcome and duration given by `trace i`), its result — or, if it
threw, the synthesized failed result — is pushed into the session and
emitted as `test_complete`; the 200 ms anti-rate-limit delay follows a
successful check only. -/
def runTests (sessionId : String) (category : Category) (chunkIndex : Nat) (trace : Nat → Step) :
    List String → Nat → Nat → SessionData → LoopOut
  | [], _, elapsed, sess => ⟨[], sess, elapsed, false⟩
  | t :: rest, i, elapsed, sess =>
    if MAX_CHUNK_TIME < elapsed then
      ⟨[.chunk_complete "Chunk timeout - continuing with next chunk" (chunkIndex + 1) sessionId],
       sess, elapsed, true⟩
    else
      match (trace i).outcome with
      | .ok r =>
        let sess1 : SessionData :=
          { sess with results := sess.results.push category r, metadata := (trace i).metaAfter }
        let out := runTests sessionId category chunkIndex trace rest (i + 1)
          (elapsed + (trace i).duration + 200) sess1
        ⟨.test_start category t ("Testing: " ++ t) sessionId ::
         .test_complete category t r sessionId :: out.events,
         out.session, out.elapsed, out.aborted⟩
      | .err msg =>
        let failed : CheckResult := ⟨t, "failed", some 0, "Error: " ++ msg⟩
        let sess1 : SessionData :=
          { sess with results := sess.results.push category failed, metadata := (trace i).metaAfter }
        let out := runTests sessionId category chunkIndex trace rest (i + 1)
          (elapsed + (trace i).duration) sess1
        ⟨.test_start category t ("Testing: " ++ t) sessionId ::
         .test_complete category t failed sessionId :: out.events,
         out.session, out.elapsed, out.aborted⟩

/-- Source `sessions.get(sessionId)` followed by the create-if-missing block. -/
def sessionFor (store : Store) (botName sessionId : String) : SessionData :=
  match Store.get store sessionId with
  | some s => s
  | none => freshSession botName

/-- The initial `progress` event of a chunk (route lines 114-121). -/
def progressEv (chunk : Chunk) (chunkIndex : Nat) (sessionId : String) : ProgressUpdate :=
  .progress ("Processing " ++ chunk.name ++ " tests...")
    (jsRound (((chunkIndex : ℚ) / (TEST_CHUNKS.length : ℚ)) * 100))
    (chunkIndex + 1) TEST_CHUNKS.length sessionId

structure ChunkOut where
  events : List ProgressUpdate
  store : Store
deriving Repr

/-- Function `processChunk` (route lines 104-251).  An out-of-range `chunkIndex`
returns immediately with no events and the store untouched.  Otherwise the
session is looked up or created, the chunk's tests run against the budget,
and the invocation ends with `complete` (plus session deletion) on the last
chunk, or `chunk_complete` otherwise.  The stored session reflects the
loop's pushes in every path: the JS session object is aliased by the map,
so mutations made before a budget abort are visible in the store even
though the abort path skips the final `sessions.set`. -/
def processChunk (botName : String) (chunkIndex : Nat) (sessionId : String)
    (trace : Nat → Step) (store : Store) : ChunkOut :=
  match TEST_CHUNKS[chunkIndex]? with
  | none => ⟨[], store⟩
  | some chunk =>
    let pEv := progressEv chunk chunkIndex sessionId
    let sess0 := sessionFor store botName sessionId
    let out := runTests sessionId chunk.category chunkIndex trace chunk.tests 0 0 sess0
    let store1 := Store.set store sessionId out.session
    if out.aborted then
      ⟨pEv :: out.events, store1⟩
    else if TEST_CHUNKS.length - 1 ≤ chunkIndex then
      ⟨pEv :: out.events ++
         [.complete (mkScorecard botName out.session) 100 "Analysis complete!" sessionId],
       Store.del store1 sessionId⟩
    else
      ⟨pEv :: out.events ++
         [.chunk_complete (chunk.name ++ " complete") (chunkIndex + 1) sessionId],
       store1⟩

/-- Process a list of chunk indices in order, threading the session store,
as the Client Orchestrator does for indices `0, 1, 2, ...`; the events of
the successive streams are concatenated in arrival order. -/
def runChunks (botName sessionId : String) (traces : Nat → Nat → Step) :
    List Nat → Store → List ProgressUpdate × Store
  | [], store => ([], store)
  | i :: rest, store =>
    let out := processChunk botName i sessionId (traces i) store
    let next := runChunks botName sessionId traces rest out.store
    (out.events ++ next.1, next.2)

/-- Names carried by `test_complete` events, in emission order. -/
def testCompleteNames : List ProgressUpdate → List String
  | [] => []
  | .test_complete _ n _ _ :: rest => n :: testCompleteNames rest
  | _ :: rest => testCompleteNames rest

/-- Results carried by `test_complete` events, in emission order. -/
def testCompleteResults : List ProgressUpdate → List CheckResult
  | [] => []
  | .test_complete _ _ r _ :: rest => r :: testCompleteResults rest
  | _ :: rest => testCompleteResults rest

/-- Names carried by `test_start` events, in emission order. -/
def testStartNames : List ProgressUpdate → List String
  | [] => []
  | .test_start _ n _ _ :: rest => n :: testStartNames rest
  | _ :: rest => testStartNames rest

/-- The budget is never exceeded at any check boundary of the given test
list: the chunk completes all its checks. -/
def withinBudget (trace : Nat → Step) (tests : List String) : Prop :=
  ∀ k, k < tests.length → elapsedFrom trace 0 k ≤ MAX_CHUNK_TIME

instance (trace : Nat → Step) (tests : List String) : Decidable (withinBudget trace tests) :=
  inferInstanceAs (Decidable (∀ k, k < tests.length → elapsedFrom trace 0 k ≤ MAX_CHUNK_TIME))

/-! ## Client Orchestrator (`runChunkedAnalysis` in the page component) -/

/-- Outcome of one chunk request as the client observes it: a transport
failure (fetch rejection, non-OK status, missing/failing body reader — any
throw inside the `try`), or a successfully consumed event stream. -/
inductive AttemptResult
  | transportFail
  | stream (events : List ProgressUpdate)
deriving DecidableEq, Repr

/-- Session id carried by an event (every emission site sets one). -/
def evSessionId : ProgressUpdate → String
  | .progress _ _ _ _ sid => sid
  | .test_start _ _ _ sid => sid
  | .test_complete _ _ _ sid => sid
  | .chunk_complete _ _ sid => sid
  | .complete _ _ _ sid => sid
  | .error _ sid => sid

/-- What the client's stream-reading loop extracts: the adopted session id
(first truthy `data.sessionId` when none is known), the last advertised
`nextChunk`, and whether a `complete` event ended the loop early. -/
structure StreamScan where
  sid : Option String
  nextChunk : Option Nat
  completed : Bool
deriving Repr

def scanEvents (sid : Option String) (nextChunk : Option Nat) :
    List ProgressUpdate → StreamScan
  | [] => ⟨sid, nextChunk, false⟩
  | ev :: rest =>
    let sid1 := if sid = none ∧ evSessionId ev ≠ "" then some (evSessionId ev) else sid
    match ev with
    | .complete _ _ _ _ => ⟨sid1, nextChunk, true⟩
    | .chunk_complete _ nc _ => scanEvents sid1 (some nc) rest
    | _ => scanEvents sid1 nextChunk rest

/-- Client-visible actions of `runChunkedAnalysis`, in order. -/
inductive ClientEvent
  | request (chunkIndex : Nat) (sessionId : Option String)
  | backoff (delayMs : Nat)
  | terminalFailure
  | interChunkDelay (delayMs : Nat)
  | finished
deriving DecidableEq, Repr

/-- Source `const MAX_RETRIES = 3`. -/
def MAX_RETRIES : Nat := 3

/-- Function `runChunkedAnalysis(chunkIndex, sessionId, retryCount)` (page component
lines 427-521).  `outcomes` gives the transport result of the n-th request
of the whole run; `fuel` bounds the recursion (each call consumes one).
On a transport failure with `retryCount < MAX_RETRIES` the same chunkIndex
is retried with the same `sessionId` argument after `2^retryCount` seconds;
with retries exhausted the run ends in a terminal failure.  On a consumed
stream: stop on `complete`; else follow `nextChunk` (retryCount resets to
its default 0) after a fixed 1000 ms delay; else stop. -/
def runClient (outcomes : Nat → AttemptResult) :
    Nat → Nat → Nat → Option String → Nat → List ClientEvent
  | 0, _, _, _, _ => []
  | fuel + 1, att, chunkIndex, sessionId, retryCount =>
    ClientEvent.request chunkIndex sessionId ::
    match outcomes att with
    | .transportFail =>
      if retryCount < MAX_RETRIES then
        ClientEvent.backoff (2 ^ retryCount * 1000) ::
        runClient outcomes fuel (att + 1) chunkIndex sessionId (retryCount + 1)
      else [ClientEvent.terminalFailure]
    | .stream evs =>
      let scan := scanEvents sessionId none evs
      if scan.completed then [ClientEvent.finished]
      else
        match scan.nextChunk with
        | some nc =>
          ClientEvent.interChunkDelay 1000 ::
          runClient outcomes fuel (att + 1) nc scan.sid 0
        | none => [ClientEvent.finished]

/-! ## Metadata caching (`executeTest`, route lines 257-330)

Only the `Fetch bot metadata` check ever contacts the bot's profile page,
and only when `sessionData.metadata` is still null; a successful fetch
stores the parsed page, a failed one leaves the cache null.  No other check
(and no other line of the route) writes `sessionData.metadata`. -/

/-- Outcome of one profile-page fetch: HTTP 200 with the page parsed into
`m` (parsing is the external `parseBotPage` glue), a non-OK status, or a
network error / timeout. -/
inductive ProfileFetch
  | ok (m : BotMetadata)
  | httpError (status : Nat)
  | netError (msg : String)
deriving DecidableEq, Repr

def ProfileFetch.isOk : ProfileFetch → Bool
  | .ok _ => true
  | _ => false

/-- Profile-page fetch count and metadata cache after one `executeTest`
call, from the test's name, the fetch outcome the network would produce,
and the cache beforehand. -/
def execTestMetaEffect (testName : String) (fetch : ProfileFetch)
    (meta : Option BotMetadata) : Nat × Option BotMetadata :=
  if testName = "Fetch bot metadata" then
    match meta with
    | some m => (0, some m)
    | none =>
      match fetch with
      | .ok m => (1, some m)
      | .httpError _ => (1, none)
      | .netError _ => (1, none)
  else (0, meta)

/-- Total profile fetches and final metadata cache over a sequence of
`executeTest` calls (any tests of any chunks of one session, in order). -/
def runMetaTrace : Option BotMetadata → List (String × ProfileFetch) → Nat × Option BotMetadata
  | meta, [] => (0, meta)
  | meta, (t, f) :: rest =>
    let step := execTestMetaEffect t f meta
    let next := runMetaTrace step.2 rest
    (step.1 + next.1, next.2)

/-! ## Concrete instances used by witnesses and counterexamples -/

/-- A trace whose first check takes 9 s (e.g. a slow network call): the
budget is blown before the second check. -/
def slowTrace : Nat → Step :=
  fun _ => ⟨9000, .ok ⟨"Bot name consistency and formatting", "passed", some 100, "ok"⟩, none⟩

def chunk1 : Chunk :=
  ⟨"branding",
   ["Bot name consistency and formatting",
    "Profile picture appeal and quality",
    "Brand consistency with model family",
    "Official verification and credibility"], .branding⟩

def chunk6 : Chunk :=
  ⟨"error_handling", ["Helpful error messages"], .errorHandling⟩

/-- The test list of the chunk at index `i` (empty when out of range). -/
def chunkTestsAt (i : Nat) : List String :=
  match TEST_CHUNKS[i]? with
  | some c => c.tests
  | none => []

/-- Name of test `j` of chunk `i` in the static configuration. -/
def testNameAt (i j : Nat) : String := (chunkTestsAt i)[j]?.getD ""

def mdum : BotMetadata := ⟨"TestBot", "TestBot", "A bot used for testing", none, false, none⟩

/-- How many stored results carry the name `n`. -/
def countName (rs : List CheckResult) (n : String) : Nat :=
  (rs.filter (fun r => r.name = n)).length

/-- Chunk-0 trace of a run whose profile-page fetch fails with HTTP 404:
both checks of the chunk return failed results (`executeTest` returns them,
it does not throw) and the metadata cache stays null. -/
def fetchFailTrace : Nat → Step := fun j =>
  ⟨0, .ok ⟨testNameAt 0 j, "failed", some 0, "Failed to fetch bot page: HTTP 404"⟩, none⟩

/-- Every check of every chunk succeeds instantly with score 100. -/
def okTraces : Nat → Nat → Step := fun i j =>
  ⟨0, .ok ⟨testNameAt i j, "passed", some 100, "ok"⟩, some mdum⟩

/-- Like `okTraces`, but the very first check of chunk 0 takes 8001 ms, so
chunk 0 blows its budget after one check. -/
def slowFirstTraces : Nat → Nat → Step := fun i j =>
  ⟨if i = 0 ∧ j = 0 then 8001 else 0,
   .ok ⟨testNameAt i j, "passed", some 100, "ok"⟩, some mdum⟩

/-- A trace in which every check's own operation rejects. -/
def errTrace : Nat → Step := fun _ => ⟨0, .err "API request failed", none⟩

/-- Number of 200 ms inter-check delays among the first `k` loop
iterations: one per successful check, zero per failed check. -/
def okCount (trace : Nat → Step) (i : Nat) : Nat → Nat
  | 0 => 0
  | k + 1 => (match (trace i).outcome with | .ok _ => 1 | .err _ => 0) + okCount trace (i + 1) k

/-- Sum of the check durations of the first `k` loop iterations. -/
def durSum (trace : Nat → Step) (i : Nat) : Nat → Nat
  | 0 => 0
  | k + 1 => (trace i).duration + durSum trace (i + 1) k

/-- A session holding one already-stored result, as left by an earlier run
of chunk 1. -/
def preSess : SessionData :=
  ⟨"TestBot",
   ⟨[⟨"Bot name consistency and formatting", "passed", some 90, "ok"⟩], [], [], [], []⟩,
   some mdum⟩

/-- A transport layer in which every request fails. -/
def failOutcomes : Nat → AttemptResult := fun _ => .transportFail

/-- An `executeTest` sequence of a full session in which every profile
fetch would succeed. -/
def metaTrace : List (String × ProfileFetch) :=
  [("Fetch bot metadata", .ok mdum),
   ("Parse bot information", .ok mdum),
   ("Bot name consistency and formatting", .ok mdum),
   ("Helpful error messages", .ok mdum)]

/-! ## Basic lemmas -/

theorem get_push_self (r : ResultsByCategory) (c : Category) (x : CheckResult) :
    (r.push c x).get c = r.get c ++ [x] := by
  cases c <;> rfl

theorem applySteps_results (category : Category) (trace : Nat → Step) :
    ∀ (tests : List String) (i : Nat) (sess : SessionData),
    (applySteps category trace tests i sess).results.get category =
      sess.results.get category ++ resultsFor trace tests i := by
  intro tests
  induction tests with
  | nil => intro i sess; simp [applySteps, resultsFor]
  | cons t rest ih =>
    intro i sess
    simp only [applySteps, resultsFor]
    rw [ih]
    simp [applyStep, get_push_self]

theorem resultsFor_length (trace : Nat → Step) :
    ∀ (tests : List String) (i : Nat),
    (resultsFor trace tests i).length = tests.length := by
  intro tests
  induction tests with
  | nil => intro i; rfl
  | cons t rest ih => intro i; simp [resultsFor, ih]

theorem resultsFor_getElem (trace : Nat → Step) :
    ∀ (tests : List String) (i k : Nat),
    (resultsFor trace tests i)[k]? =
      (tests[k]?).map (fun t => resultOfStep t (trace (i + k))) := by
  intro tests
  induction tests with
  | nil => intro i k; rfl
  | cons t rest ih =>
    intro i k
    cases k with
    | zero => simp [resultsFor]
    | succ k' =>
      have harith : i + 1 + k' = i + (k' + 1) := by omega
      have h := ih (i + 1) k'
      rw [harith] at h
      simpa [resultsFor] using h

theorem testCompleteNames_append (l1 l2 : List ProgressUpdate) :
    testCompleteNames (l1 ++ l2) = testCompleteNames l1 ++ testCompleteNames l2 := by
  induction l1 with
  | nil => rfl
  | cons ev rest ih => cases ev <;> simp [testCompleteNames, ih]

theorem testCompleteResults_append (l1 l2 : List ProgressUpdate) :
    testCompleteResults (l1 ++ l2) = testCompleteResults l1 ++ testCompleteResults l2 := by
  induction l1 with
  | nil => rfl
  | cons ev rest ih => cases ev <;> simp [testCompleteResults, ih]

theorem testStartNames_append (l1 l2 : List ProgressUpdate) :
    testStartNames (l1 ++ l2) = testStartNames l1 ++ testStartNames l2 := by
  induction l1 with
  | nil => rfl
  | cons ev rest ih => cases ev <;> simp [testStartNames, ih]

theorem testCompleteNames_eventsFor (sessionId : String) (category : Category)
    (trace : Nat → Step) :
    ∀ (tests : List String) (i : Nat),
    testCompleteNames (eventsFor sessionId category trace tests i) = tests := by
  intro tests
  induction tests with
  | nil => intro i; rfl
  | cons t rest ih => intro i; simp [eventsFor, testCompleteNames, ih]

theorem testCompleteResults_eventsFor (sessionId : String) (category : Category)
    (trace : Nat → Step) :
    ∀ (tests : List String) (i : Nat),
    testCompleteResults (eventsFor sessionId category trace tests i) =
      resultsFor trace tests i := by
  intro tests
  induction tests with
  | nil => intro i; rfl
  | cons t rest ih => intro i; simp [eventsFor, resultsFor, testCompleteResults, ih]

theorem testStartNames_eventsFor (sessionId : String) (category : Category)
    (trace : Nat → Step) :
    ∀ (tests : List String) (i : Nat),
    testStartNames (eventsFor sessionId category trace tests i) = tests := by
  intro tests
  induction tests with
  | nil => intro i; rfl
  | cons t rest ih => intro i; simp [eventsFor, testStartNames, ih]

theorem Store.get_set_self (st : Store) (k : String) (v : SessionData) :
    Store.get (Store.set st k v) k = some v := by
  induction st with
  | nil => simp [Store.set, Store.get]
  | cons p rest ih =>
    by_cases h : p.1 = k <;> simp [Store.set, Store.get, h, ih]

theorem Store.get_del_self (st : Store) (k : String) :
    Store.get (Store.del st k) k = none := by
  induction st with
  | nil => rfl
  | cons p rest ih =>
    by_cases h : p.1 = k <;> simp [Store.del, Store.get, h, ih]

/-! ## Characterizing the test loop -/

theorem runTests_no_abort (sessionId : String) (category : Category) (chunkIndex : Nat)
    (trace : Nat → Step) :
    ∀ (tests : List String) (i elapsed : Nat) (sess : SessionData),
    (∀ k, k < tests.length → elapsed + elapsedFrom trace i k ≤ MAX_CHUNK_TIME) →
    runTests sessionId category chunkIndex trace tests i elapsed sess =
      ⟨eventsFor sessionId category trace tests i,
       applySteps category trace tests i sess,
       elapsed + elapsedFrom trace i tests.length, false⟩ := by
  intro tests
  induction tests with
  | nil =>
    intro i elapsed sess h
    simp [runTests, eventsFor, applySteps, elapsedFrom]
  | cons t rest ih =>
    intro i elapsed sess h
    have h0 : ¬ MAX_CHUNK_TIME < elapsed := by
      have h00 := h 0 (by simp)
      simp only [elapsedFrom, Nat.add_zero] at h00
      omega
    have hstep : ∀ k, k < rest.length →
        elapsed + stepTime (trace i) + elapsedFrom trace (i + 1) k ≤ MAX_CHUNK_TIME := by
      intro k hk
      have := h (k + 1) (by simpa using Nat.succ_lt_succ hk)
      simp only [elapsedFrom] at this
      omega
    cases ho : (trace i).outcome with
    | ok r =>
      have htime : stepTime (trace i) = (trace i).duration + 200 := by
        simp [stepTime, ho]
      simp only [runTests, if_neg h0, ho]
      rw [ih (i + 1) (elapsed + (trace i).duration + 200) _
        (by intro k hk; have hh := hstep k hk; rw [htime] at hh; omega)]
      simp only [eventsFor, applySteps, applyStep, resultOfStep, ho, elapsedFrom,
        List.length_cons, htime]
      refine congrArg (fun e => LoopOut.mk _ _ e false) ?_
      omega
    | err msg =>
      have htime : stepTime (trace i) = (trace i).duration := by
        simp [stepTime, ho]
      simp only [runTests, if_neg h0, ho]
      rw [ih (i + 1) (elapsed + (trace i).duration) _
        (by intro k hk; have hh := hstep k hk; rw [htime] at hh; omega)]
      simp only [eventsFor, applySteps, applyStep, resultOfStep, ho, elapsedFrom,
        List.length_cons, htime]
      refine congrArg (fun e => LoopOut.mk _ _ e false) ?_
      omega

theorem runTests_abort (sessionId : String) (category : Category) (chunkIndex : Nat)
    (trace : Nat → Step) :
    ∀ (tests : List String) (k i elapsed : Nat) (sess : SessionData),
    k < tests.length →
    (∀ j, j < k → elapsed + elapsedFrom trace i j ≤ MAX_CHUNK_TIME) →
    MAX_CHUNK_TIME < elapsed + elapsedFrom trace i k →
    runTests sessionId category chunkIndex trace tests i elapsed sess =
      ⟨eventsFor sessionId category trace (tests.take k) i ++
         [.chunk_complete "Chunk timeout - continuing with next chunk" (chunkIndex + 1) sessionId],
       applySteps category trace (tests.take k) i sess,
       elapsed + elapsedFrom trace i k, true⟩ := by
  intro tests
  induction tests with
  | nil =>
    intro k i elapsed sess hk
    exact absurd hk (by simp)
  | cons t rest ih =>
    intro k i elapsed sess hk hfine hover
    cases k with
    | zero =>
      simp only [elapsedFrom, Nat.add_zero] at hover
      simp [runTests, if_pos hover, eventsFor, applySteps, elapsedFrom]
    | succ k' =>
      have h0 : ¬ MAX_CHUNK_TIME < elapsed := by
        have := hfine 0 (Nat.succ_pos _)
        simp only [elapsedFrom, Nat.add_zero] at this
        omega
      have hk' : k' < rest.length := by simpa using hk
      have hover' : MAX_CHUNK_TIME < elapsed + stepTime (trace i) + elapsedFrom trace (i + 1) k' := by
        simp only [elapsedFrom] at hover
        omega
      have hfine' : ∀ j, j < k' →
          elapsed + stepTime (trace i) + elapsedFrom trace (i + 1) j ≤ MAX_CHUNK_TIME := by
        intro j hj
        have := hfine (j + 1) (by omega)
        simp only [elapsedFrom] at this
        omega
      cases ho : (trace i).outcome with
      | ok r =>
        have htime : stepTime (trace i) = (trace i).duration + 200 := by
          simp [stepTime, ho]
        simp only [runTests, if_neg h0, ho]
        rw [ih k' (i + 1) (elapsed + (trace i).duration + 200) _ hk'
          (by intro j hj; have hh := hfine' j hj; rw [htime] at hh; omega)
          (by rw [htime] at hover'; omega)]
        simp only [List.take_succ_cons, eventsFor, applySteps, applyStep, resultOfStep, ho,
          elapsedFrom, htime]
        refine congrArg (fun e => LoopOut.mk _ _ e true) ?_
        omega
      | err msg =>
        have htime : stepTime (trace i) = (trace i).duration := by
          simp [stepTime, ho]
        simp only [runTests, if_neg h0, ho]
        rw [ih k' (i + 1) (elapsed + (trace i).duration) _ hk'
          (by intro j hj; have hh := hfine' j hj; rw [htime] at hh; omega)
          (by rw [htime] at hover'; omega)]
        simp only [List.take_succ_cons, eventsFor, applySteps, applyStep, resultOfStep, ho,
          elapsedFrom, htime]
        refine congrArg (fun e => LoopOut.mk _ _ e true) ?_
        omega

/-! ## Characterizing `processChunk` -/

/-- A non-final chunk that stays within budget: the full event sequence and
the store update (session set, never deleted). -/
theorem processChunk_mid (botName sessionId : String) (trace : Nat → Step) (store : Store)
    (chunkIndex : Nat) (chunk : Chunk) (hc : TEST_CHUNKS[chunkIndex]? = some chunk)
    (hnl : chunkIndex + 1 < TEST_CHUNKS.length)
    (hb : withinBudget trace chunk.tests) :
    processChunk botName chunkIndex sessionId trace store =
      ⟨progressEv chunk chunkIndex sessionId ::
         eventsFor sessionId chunk.category trace chunk.tests 0 ++
         [.chunk_complete (chunk.name ++ " complete") (chunkIndex + 1) sessionId],
       Store.set store sessionId
         (applySteps chunk.category trace chunk.tests 0 (sessionFor store botName sessionId))⟩ := by
  unfold processChunk
  rw [hc]
  dsimp only
  rw [runTests_no_abort sessionId chunk.category chunkIndex trace chunk.tests 0 0
    (sessionFor store botName sessionId) (by intro k hk; simpa using hb k hk)]
  simp only [Bool.false_eq_true, if_false]
  rw [if_neg (by omega : ¬ TEST_CHUNKS.length - 1 ≤ chunkIndex)]

/-- The final chunk within budget: emits `complete` with the scorecard of
the accumulated session and deletes the session from the store. -/
theorem processChunk_last (botName sessionId : String) (trace : Nat → Step) (store : Store)
    (chunkIndex : Nat) (chunk : Chunk) (hc : TEST_CHUNKS[chunkIndex]? = some chunk)
    (hla : TEST_CHUNKS.length - 1 ≤ chunkIndex)
    (hb : withinBudget trace chunk.tests) :
    processChunk botName chunkIndex sessionId trace store =
      ⟨progressEv chunk chunkIndex sessionId ::
         eventsFor sessionId chunk.category trace chunk.tests 0 ++
         [.complete
            (mkScorecard botName
              (applySteps chunk.category trace chunk.tests 0 (sessionFor store botName sessionId)))
            100 "Analysis complete!" sessionId],
       Store.del
         (Store.set store sessionId
           (applySteps chunk.category trace chunk.tests 0 (sessionFor store botName sessionId)))
         sessionId⟩ := by
  unfold processChunk
  rw [hc]
  dsimp only
  rw [runTests_no_abort sessionId chunk.category chunkIndex trace chunk.tests 0 0
    (sessionFor store botName sessionId) (by intro k hk; simpa using hb k hk)]
  simp only [Bool.false_eq_true, if_false]
  rw [if_pos hla]

/-- Any in-range chunk that is not the last leaves the store equal to
`Store.set store sessionId s1` for some session value `s1` — whether or not
the budget was exhausted (the JS session object is aliased by the map, so
even the abort path leaves the mutated session stored). -/
theorem processChunk_store_mid (botName sessionId : String) (trace : Nat → Step) (store : Store)
    (chunkIndex : Nat) (hnl : chunkIndex + 1 < TEST_CHUNKS.length) :
    ∃ s1, (processChunk botName chunkIndex sessionId trace store).store =
      Store.set store sessionId s1 := by
  have hlt : chunkIndex < TEST_CHUNKS.length := by omega
  cases hout : runTests sessionId (TEST_CHUNKS[chunkIndex]).category chunkIndex trace
      (TEST_CHUNKS[chunkIndex]).tests 0 0 (sessionFor store botName sessionId) with
  | mk evs sess el ab =>
    refine ⟨sess, ?_⟩
    unfold processChunk
    rw [List.getElem?_eq_getElem hlt]
    dsimp only
    simp only [hout]
    cases ab with
    | false =>
      simp only [Bool.false_eq_true, if_false]
      rw [if_neg (by omega : ¬ TEST_CHUNKS.length - 1 ≤ chunkIndex)]
    | true => simp

/-! ## C3: budget exhaustion aborts the chunk before the over-budget check -/

/-- C3 (confirmed).  The wall-clock budget (`MAX_CHUNK_TIME = 8000` ms
from chunk entry) is checked before starting each check.  If the elapsed
time first exceeds the budget at the check boundary before test `k`, then
the chunk's stream consists of the initial `progress` event, the events of
the first `k` checks only, and a final `chunk_complete` event carrying
`nextChunk = chunkIndex + 1` — nothing else: the remaining checks are never
started (`test_start` is emitted exactly for `tests.take k`) and the
invocation returns immediately. -/
theorem budget_exceeded_aborts_chunk
    (botName sessionId : String) (trace : Nat → Step) (store : Store)
    (chunkIndex : Nat) (chunk : Chunk) (hc : TEST_CHUNKS[chunkIndex]? = some chunk)
    (k : Nat) (hk : k < chunk.tests.length)
    (hfine : ∀ j, j < k → elapsedFrom trace 0 j ≤ MAX_CHUNK_TIME)
    (hover : MAX_CHUNK_TIME < elapsedFrom trace 0 k) :
    (processChunk botName chunkIndex sessionId trace store).events =
      progressEv chunk chunkIndex sessionId ::
        eventsFor sessionId chunk.category trace (chunk.tests.take k) 0 ++
        [.chunk_complete "Chunk timeout - continuing with next chunk" (chunkIndex + 1) sessionId] ∧
    testStartNames (processChunk botName chunkIndex sessionId trace store).events =
      chunk.tests.take k := by
  have hev : (processChunk botName chunkIndex sessionId trace store).events =
      progressEv chunk chunkIndex sessionId ::
        eventsFor sessionId chunk.category trace (chunk.tests.take k) 0 ++
        [.chunk_complete "Chunk timeout - continuing with next chunk" (chunkIndex + 1) sessionId] := by
    unfold processChunk
    rw [hc]
    dsimp only
    rw [runTests_abort sessionId chunk.category chunkIndex trace chunk.tests k 0 0
      (sessionFor store botName sessionId) hk
      (by intro j hj; simpa using hfine j hj) (by simpa using hover)]
    simp
  refine ⟨hev, ?_⟩
  rw [hev]
  simp [testStartNames, testStartNames_append, testStartNames_eventsFor]

theorem budget_exceeded_aborts_chunk_witness :
    (processChunk "TestBot" 1 "s1" slowTrace []).events =
      progressEv chunk1 1 "s1" ::
        eventsFor "s1" chunk1.category slowTrace (chunk1.tests.take 1) 0 ++
        [.chunk_complete "Chunk timeout - continuing with next chunk" 2 "s1"] ∧
    testStartNames (processChunk "TestBot" 1 "s1" slowTrace []).events =
      chunk1.tests.take 1 :=
  budget_exceeded_aborts_chunk "TestBot" "s1" slowTrace [] 1 chunk1 (by decide)
    1 (by decide) (by decide) (by decide)

/-! ## C10: out-of-range chunk index is a no-op -/

/-- C10 (confirmed).  A chunk request whose `chunkIndex` is outside the
configured range (`chunkIndex ≥ TEST_CHUNKS.length = 7`) emits no event at
all (the stream is closed empty by the endpoint's `finally`) and leaves the
session store exactly as it was: no entry is created, modified or deleted —
`processChunk` returns before the session lookup/creation block. -/
theorem out_of_range_chunk_is_noop
    (botName sessionId : String) (trace : Nat → Step) (store : Store) (chunkIndex : Nat)
    (h : TEST_CHUNKS.length ≤ chunkIndex) :
    processChunk botName chunkIndex sessionId trace store = ⟨[], store⟩ := by
  unfold processChunk
  rw [List.getElem?_eq_none h]

theorem out_of_range_chunk_is_noop_witness :
    processChunk "TestBot" 7 "s1" slowTrace [("s1", freshSession "TestBot")] =
      ⟨[], [("s1", freshSession "TestBot")]⟩ :=
  out_of_range_chunk_is_noop "TestBot" "s1" slowTrace [("s1", freshSession "TestBot")] 7
    (by decide)

/-! ## Per-chunk and per-run test_complete names -/

/-- A chunk processed entirely within budget emits one `test_complete` per
configured test, in order — whether it is the last chunk or not. -/
theorem processChunk_completeNames (botName sessionId : String) (trace : Nat → Step)
    (store : Store) (chunkIndex : Nat) (chunk : Chunk)
    (hc : TEST_CHUNKS[chunkIndex]? = some chunk)
    (hb : withinBudget trace chunk.tests) :
    testCompleteNames (processChunk botName chunkIndex sessionId trace store).events =
      chunk.tests := by
  have hlt : chunkIndex < TEST_CHUNKS.length := by
    by_contra hge
    rw [List.getElem?_eq_none (by omega)] at hc
    exact Option.noConfusion hc
  by_cases hla : TEST_CHUNKS.length - 1 ≤ chunkIndex
  · rw [processChunk_last botName sessionId trace store chunkIndex chunk hc hla hb]
    simp [progressEv, testCompleteNames, testCompleteNames_append, testCompleteNames_eventsFor]
  · rw [processChunk_mid botName sessionId trace store chunkIndex chunk hc (by omega) hb]
    simp [progressEv, testCompleteNames, testCompleteNames_append, testCompleteNames_eventsFor]

/-- The same result a chunk invocation emits: the names of a chunk run
within budget in result form. -/
theorem processChunk_completeResults (botName sessionId : String) (trace : Nat → Step)
    (store : Store) (chunkIndex : Nat) (chunk : Chunk)
    (hc : TEST_CHUNKS[chunkIndex]? = some chunk)
    (hb : withinBudget trace chunk.tests) :
    testCompleteResults (processChunk botName chunkIndex sessionId trace store).events =
      resultsFor trace chunk.tests 0 := by
  have hlt : chunkIndex < TEST_CHUNKS.length := by
    by_contra hge
    rw [List.getElem?_eq_none (by omega)] at hc
    exact Option.noConfusion hc
  by_cases hla : TEST_CHUNKS.length - 1 ≤ chunkIndex
  · rw [processChunk_last botName sessionId trace store chunkIndex chunk hc hla hb]
    simp [progressEv, testCompleteResults, testCompleteResults_append,
      testCompleteResults_eventsFor]
  · rw [processChunk_mid botName sessionId trace store chunkIndex chunk hc (by omega) hb]
    simp [progressEv, testCompleteResults, testCompleteResults_append,
      testCompleteResults_eventsFor]

theorem runChunks_completeNames (botName sessionId : String) (traces : Nat → Nat → Step) :
    ∀ (idxs : List Nat) (store : Store),
    (∀ i ∈ idxs, withinBudget (traces i) (chunkTestsAt i)) →
    testCompleteNames (runChunks botName sessionId traces idxs store).1 =
      idxs.foldr (fun i acc => chunkTestsAt i ++ acc) [] := by
  intro idxs
  induction idxs with
  | nil => intro store h; rfl
  | cons i rest ih =>
    intro store h
    simp only [runChunks, List.foldr_cons]
    rw [testCompleteNames_append]
    rw [ih _ (by intro j hj; exact h j (by simp [hj]))]
    congr 1
    cases hci : TEST_CHUNKS[i]? with
    | none =>
      have hev : (processChunk botName i sessionId (traces i) store).events = [] := by
        unfold processChunk
        rw [hci]
      rw [hev]
      simp [chunkTestsAt, hci, testCompleteNames]
    | some chunk =>
      rw [processChunk_completeNames botName sessionId (traces i) store i chunk hci
        (by have := h i (by simp); simpa [chunkTestsAt, hci] using this)]
      simp [chunkTestsAt, hci]

/-! ## C2: coverage of the check registry -/

/-- C2 (corrected) — counterexample to the claim as stated.  When chunk
0's first check consumes the whole budget, the budget check aborts chunk 0
before `Parse bot information` is started; processing all remaining chunks
0..6 to their terminal events never runs that check, because each later
chunk only runs its own statically configured test list.  The claim's
"a check not started because its chunk's time budget was exhausted is run
in a later chunk" is false of the code. -/
theorem skipped_check_never_rerun_counterexample :
    ("Parse bot information" ∈ checkRegistry) ∧
    ("Parse bot information" ∉
      testCompleteNames
        (runChunks "TestBot" "s1" slowFirstTraces (List.range TEST_CHUNKS.length) []).1) := by
  constructor
  · decide
  · decide

/-- C2 (amended): if every chunk stays within its budget, the names
carried by the `test_complete` events of chunks 0..6, processed in order,
are exactly the statically configured check registry, and the registry has
no duplicate names (so no check is emitted by two different chunks).
Checks skipped by budget exhaustion, however, are lost, not rerun
(see the counterexample). -/
theorem registry_covered_when_within_budget
    (botName sessionId : String) (traces : Nat → Nat → Step) (store : Store)
    (hb : ∀ i, i < TEST_CHUNKS.length → withinBudget (traces i) (chunkTestsAt i)) :
    testCompleteNames
        (runChunks botName sessionId traces (List.range TEST_CHUNKS.length) store).1 =
      checkRegistry ∧ checkRegistry.Nodup := by
  refine ⟨?_, by decide⟩
  rw [runChunks_completeNames botName sessionId traces _ store
    (by intro i hi; exact hb i (by simpa using List.mem_range.mp hi))]
  decide

theorem registry_covered_when_within_budget_witness :
    testCompleteNames
        (runChunks "TestBot" "s1" okTraces (List.range TEST_CHUNKS.length) []).1 =
      checkRegistry ∧ checkRegistry.Nodup :=
  registry_covered_when_within_budget "TestBot" "s1" okTraces [] (by decide)

/-! ## C1: append, not replace-by-name -/

/-- C1 (corrected) — counterexample to the claim as stated.  Re-running
chunk 0 for the same session (a retried request) *appends* a second
`CheckResult` named `Fetch bot metadata` to the session's usability
collection: after one run the count is 1, after the re-run it is 2.  The
Chunk Executor pushes unconditionally; only the Client Orchestrator's
live-result accumulator replaces by name. -/
theorem reprocessing_duplicates_results_counterexample :
    countName
        (((Store.get (processChunk "TestBot" 0 "s1" fetchFailTrace []).store "s1").getD
            (freshSession "TestBot")).results.usability)
        "Fetch bot metadata" = 1 ∧
    countName
        (((Store.get (processChunk "TestBot" 0 "s1" fetchFailTrace
              (processChunk "TestBot" 0 "s1" fetchFailTrace []).store).store "s1").getD
            (freshSession "TestBot")).results.usability)
        "Fetch bot metadata" = 2 := by
  constructor
  · decide
  · decide

/-- C1 (amended): for a non-final chunk processed within budget against
an existing session `s`, the stored session afterwards is `s` with the
chunk's completed results *appended* to the chunk's category collection —
one new entry per completed check, regardless of whether a result with the
same name was already present.  Re-processing a chunk therefore grows the
collection instead of replacing entries in place. -/
theorem chunk_appends_results
    (botName sessionId : String) (trace : Nat → Step) (store : Store)
    (chunkIndex : Nat) (chunk : Chunk) (hc : TEST_CHUNKS[chunkIndex]? = some chunk)
    (hnl : chunkIndex + 1 < TEST_CHUNKS.length)
    (s : SessionData) (hs : Store.get store sessionId = some s)
    (hb : withinBudget trace chunk.tests) :
    Store.get (processChunk botName chunkIndex sessionId trace store).store sessionId =
      some (applySteps chunk.category trace chunk.tests 0 s) ∧
    (applySteps chunk.category trace chunk.tests 0 s).results.get chunk.category =
      s.results.get chunk.category ++ resultsFor trace chunk.tests 0 ∧
    (resultsFor trace chunk.tests 0).length = chunk.tests.length := by
  have hsf : sessionFor store botName sessionId = s := by simp [sessionFor, hs]
  rw [processChunk_mid botName sessionId trace store chunkIndex chunk hc hnl hb]
  refine ⟨?_, applySteps_results _ _ _ _ _, resultsFor_length _ _ _⟩
  simp [Store.get_set_self, hsf]

theorem chunk_appends_results_witness :
    Store.get (processChunk "TestBot" 1 "s1" fetchFailTrace [("s1", preSess)]).store "s1" =
      some (applySteps chunk1.category fetchFailTrace chunk1.tests 0 preSess) ∧
    (applySteps chunk1.category fetchFailTrace chunk1.tests 0 preSess).results.get
        chunk1.category =
      preSess.results.get chunk1.category ++ resultsFor fetchFailTrace chunk1.tests 0 ∧
    (resultsFor fetchFailTrace chunk1.tests 0).length = chunk1.tests.length :=
  chunk_appends_results "TestBot" "s1" fetchFailTrace [("s1", preSess)] 1 chunk1 (by decide)
    (by decide) preSess (by decide) (by decide)

/-! ## C9: the inter-check delay exists only after successful checks -/

theorem elapsedFrom_eq_durSum (trace : Nat → Step) :
    ∀ (k i : Nat), elapsedFrom trace i k = durSum trace i k + 200 * okCount trace i k := by
  intro k
  induction k with
  | zero => intro i; rfl
  | succ k' ih =>
    intro i
    simp only [elapsedFrom, durSum, okCount, stepTime, ih (i + 1)]
    cases (trace i).outcome <;> simp <;> ring

/-- C9 (corrected) — counterexample to the claim as stated.  In a chunk
whose four checks all reject (and are all synthesized into failed results —
four `test_complete` events), the loop's elapsed clock at exit is 0 ms:
no inter-check delay at all was inserted after the failed checks, so
consecutive check executions are not separated by 200 ms. -/
theorem no_delay_after_failed_check_counterexample :
    (runTests "s1" Category.branding 1 errTrace chunk1.tests 0 0
        (freshSession "TestBot")).elapsed = 0 ∧
    (testCompleteNames
        (runTests "s1" Category.branding 1 errTrace chunk1.tests 0 0
          (freshSession "TestBot")).events).length = 4 := by
  constructor
  · decide
  · decide

/-- C9 (amended): the 200 ms inter-check delay is inserted after each
*successfully* completed check only; after a check whose failure was caught
and synthesized into a failed result, the next check starts with no delay.
The loop's total elapsed time is the sum of the check durations plus 200 ms
times the number of successful checks. -/
theorem delay_follows_successful_checks_only
    (sessionId : String) (category : Category) (chunkIndex : Nat) (trace : Nat → Step)
    (tests : List String) (sess : SessionData)
    (hb : withinBudget trace tests) :
    (runTests sessionId category chunkIndex trace tests 0 0 sess).elapsed =
      durSum trace 0 tests.length + 200 * okCount trace 0 tests.length := by
  rw [runTests_no_abort sessionId category chunkIndex trace tests 0 0 sess
    (by intro k hk; simpa using hb k hk)]
  simpa using elapsedFrom_eq_durSum trace tests.length 0

theorem delay_follows_successful_checks_only_witness :
    (runTests "s1" Category.branding 1 errTrace chunk1.tests 0 0
        (freshSession "TestBot")).elapsed =
      durSum errTrace 0 chunk1.tests.length + 200 * okCount errTrace 0 chunk1.tests.length :=
  delay_follows_successful_checks_only "s1" Category.branding 1 errTrace chunk1.tests
    (freshSession "TestBot") (by decide)

/-! ## C4: the client's retry/backoff loop -/

/-- C4 (confirmed).  On consecutive transport failures the Client
Orchestrator retries the same chunk index with the same session id after
`2^retryCount` seconds, up to `MAX_RETRIES = 3` retries.  Four consecutive
transport failures produce exactly four requests — all for the same
chunkIndex and sessionId — separated by backoffs of 1 s, 2 s and 4 s,
followed by a terminal failure; no further chunk index is ever requested. -/
theorem four_attempts_then_terminal_failure
    (f chunkIndex : Nat) (sessionId : Option String) (outcomes : Nat → AttemptResult)
    (h : ∀ i, i < 4 → outcomes i = .transportFail) :
    runClient outcomes (f + 4) 0 chunkIndex sessionId 0 =
      [.request chunkIndex sessionId, .backoff 1000,
       .request chunkIndex sessionId, .backoff 2000,
       .request chunkIndex sessionId, .backoff 4000,
       .request chunkIndex sessionId, .terminalFailure] := by
  have h0 := h 0 (by omega)
  have h1 := h 1 (by omega)
  have h2 := h 2 (by omega)
  have h3 := h 3 (by omega)
  simp [runClient, h0, h1, h2, h3, MAX_RETRIES]

theorem four_attempts_then_terminal_failure_witness :
    runClient failOutcomes 4 0 2 (some "s1") 0 =
      [.request 2 (some "s1"), .backoff 1000,
       .request 2 (some "s1"), .backoff 2000,
       .request 2 (some "s1"), .backoff 4000,
       .request 2 (some "s1"), .terminalFailure] :=
  four_attempts_then_terminal_failure 0 2 (some "s1") failOutcomes (by decide)

/-! ## C5: the overall score is the rounded mean of all stored scores -/

theorem foldl_scoreOrZero (rs : List CheckResult) (a : Int) :
    rs.foldl (fun acc r => acc + scoreOrZero r) a = a + (rs.map scoreOrZero).sum := by
  induction rs generalizing a with
  | nil => simp
  | cons r rest ih =>
    simp only [List.foldl_cons, List.map_cons, List.sum_cons, ih]
    ring

/-- C5 (confirmed).  When the last chunk finishes its checks within
budget, the emitted `complete` event carries the scorecard of the final
session, and its `overallScore` is `Math.round` of the mean, over *all*
CheckResults accumulated in the session's five category collections, of
`score || 0` — a missing score contributes 0 to the numerator but still
counts once in the denominator. -/
theorem overall_score_is_rounded_mean
    (botName sessionId : String) (trace : Nat → Step) (store : Store)
    (chunk : Chunk) (hc : TEST_CHUNKS[TEST_CHUNKS.length - 1]? = some chunk)
    (hb : withinBudget trace chunk.tests) :
    ProgressUpdate.complete
        (mkScorecard botName
          (applySteps chunk.category trace chunk.tests 0 (sessionFor store botName sessionId)))
        100 "Analysis complete!" sessionId ∈
      (processChunk botName (TEST_CHUNKS.length - 1) sessionId trace store).events ∧
    (mkScorecard botName
        (applySteps chunk.category trace chunk.tests 0
          (sessionFor store botName sessionId))).overallScore =
      specOverallScore
        (allResultsOf
          (applySteps chunk.category trace chunk.tests 0
            (sessionFor store botName sessionId)).results) := by
  constructor
  · rw [processChunk_last botName sessionId trace store (TEST_CHUNKS.length - 1) chunk hc
      le_rfl hb]
    simp
  · simp [mkScorecard, specOverallScore, foldl_scoreOrZero]

theorem overall_score_is_rounded_mean_witness :
    ProgressUpdate.complete
        (mkScorecard "TestBot"
          (applySteps chunk6.category (okTraces 6) chunk6.tests 0
            (sessionFor [] "TestBot" "s1")))
        100 "Analysis complete!" "s1" ∈
      (processChunk "TestBot" (TEST_CHUNKS.length - 1) "s1" (okTraces 6) []).events ∧
    (mkScorecard "TestBot"
        (applySteps chunk6.category (okTraces 6) chunk6.tests 0
          (sessionFor [] "TestBot" "s1"))).overallScore =
      specOverallScore
        (allResultsOf
          (applySteps chunk6.category (okTraces 6) chunk6.tests 0
            (sessionFor [] "TestBot" "s1")).results) :=
  overall_score_is_rounded_mean "TestBot" "s1" (okTraces 6) [] chunk6 (by decide) (by decide)

/-! ## C6: a throwing check is synthesized into a failed result -/

/-- C6 (confirmed).  When the check at position `k` of a chunk
processed within budget throws with message `msg`, the Chunk Executor
synthesizes the result `{name, status: failed, score: 0, details: "Error: " ++ msg}`,
emits it in a `test_complete` event, stores it in the session's category
collection — and still emits one `test_complete` per configured check of
the chunk (the failure aborts neither the chunk nor the run). -/
theorem check_failure_synthesized_and_recovered
    (botName sessionId : String) (trace : Nat → Step) (store : Store)
    (chunkIndex : Nat) (chunk : Chunk) (hc : TEST_CHUNKS[chunkIndex]? = some chunk)
    (hb : withinBudget trace chunk.tests)
    (k : Nat) (hk : k < chunk.tests.length) (msg : String)
    (he : (trace k).outcome = .err msg) :
    testCompleteResults (processChunk botName chunkIndex sessionId trace store).events =
      resultsFor trace chunk.tests 0 ∧
    (testCompleteResults (processChunk botName chunkIndex sessionId trace store).events).length =
      chunk.tests.length ∧
    CheckResult.mk (chunk.tests.get ⟨k, hk⟩) "failed" (some 0) ("Error: " ++ msg) ∈
      testCompleteResults (processChunk botName chunkIndex sessionId trace store).events ∧
    CheckResult.mk (chunk.tests.get ⟨k, hk⟩) "failed" (some 0) ("Error: " ++ msg) ∈
      (applySteps chunk.category trace chunk.tests 0
        (sessionFor store botName sessionId)).results.get chunk.category := by
  have h1 := processChunk_completeResults botName sessionId trace store chunkIndex chunk hc hb
  have hmem : CheckResult.mk (chunk.tests.get ⟨k, hk⟩) "failed" (some 0) ("Error: " ++ msg) ∈
      resultsFor trace chunk.tests 0 := by
    have hklen : k < (resultsFor trace chunk.tests 0).length := by
      rw [resultsFor_length]; exact hk
    have hg : (resultsFor trace chunk.tests 0)[k]? =
        some (CheckResult.mk (chunk.tests.get ⟨k, hk⟩) "failed" (some 0) ("Error: " ++ msg)) := by
      rw [resultsFor_getElem trace chunk.tests 0 k, List.getElem?_eq_getElem hk]
      simp [resultOfStep, he]
    rw [List.getElem?_eq_getElem hklen, Option.some.injEq] at hg
    have hm := List.getElem_mem hklen
    rwa [hg] at hm
  refine ⟨h1, ?_, ?_, ?_⟩
  · rw [h1, resultsFor_length]
  · rw [h1]; exact hmem
  · rw [applySteps_results]
    exact List.mem_append_right _ hmem

theorem check_failure_synthesized_and_recovered_witness :
    testCompleteResults (processChunk "TestBot" 6 "s1" errTrace []).events =
      resultsFor errTrace chunk6.tests 0 ∧
    (testCompleteResults (processChunk "TestBot" 6 "s1" errTrace []).events).length =
      chunk6.tests.length ∧
    CheckResult.mk "Helpful error messages" "failed" (some 0)
        ("Error: " ++ "API request failed") ∈
      testCompleteResults (processChunk "TestBot" 6 "s1" errTrace []).events ∧
    CheckResult.mk "Helpful error messages" "failed" (some 0)
        ("Error: " ++ "API request failed") ∈
      (applySteps chunk6.category errTrace chunk6.tests 0
        (sessionFor [] "TestBot" "s1")).results.get chunk6.category :=
  check_failure_synthesized_and_recovered "TestBot" "s1" errTrace [] 6 chunk6 (by decide)
    (by decide) 0 (by decide) "API request failed" (by decide)

/-! ## C7: session lifetime brackets the run -/

theorem runChunks_append (botName sessionId : String) (traces : Nat → Nat → Step) :
    ∀ (l1 l2 : List Nat) (store : Store),
    runChunks botName sessionId traces (l1 ++ l2) store =
      ((runChunks botName sessionId traces l1 store).1 ++
         (runChunks botName sessionId traces l2
           (runChunks botName sessionId traces l1 store).2).1,
       (runChunks botName sessionId traces l2
         (runChunks botName sessionId traces l1 store).2).2) := by
  intro l1
  induction l1 with
  | nil => intro l2 store; simp [runChunks]
  | cons i rest ih =>
    intro l2 store
    simp [runChunks, ih]

/-- C7 (confirmed).  A session entry is created by the first chunk
request carrying a sessionId not yet in the store, and the invocation that
emits the `complete` event for the last chunk deletes it in the same
breath: after a full run of chunks 0..6, each within budget, the session
store again holds no entry for the sessionId. -/
theorem session_created_then_deleted
    (botName sessionId : String) (traces : Nat → Nat → Step)
    (hb : ∀ i, i < TEST_CHUNKS.length → withinBudget (traces i) (chunkTestsAt i)) :
    (Store.get (processChunk botName 0 sessionId (traces 0) []).store sessionId).isSome = true ∧
    (∃ sc, ProgressUpdate.complete sc 100 "Analysis complete!" sessionId ∈
      (runChunks botName sessionId traces (List.range TEST_CHUNKS.length) []).1) ∧
    Store.get (runChunks botName sessionId traces (List.range TEST_CHUNKS.length) []).2
      sessionId = none := by
  have hc6 : TEST_CHUNKS[(6 : Nat)]? = some chunk6 := rfl
  have hb6 : withinBudget (traces 6) chunk6.tests := by
    have h := hb 6 (by decide)
    have he : chunkTestsAt 6 = chunk6.tests := rfl
    rwa [he] at h
  have hrun : runChunks botName sessionId traces (List.range TEST_CHUNKS.length) [] =
      ((runChunks botName sessionId traces [0, 1, 2, 3, 4, 5] []).1 ++
         (runChunks botName sessionId traces [6]
           (runChunks botName sessionId traces [0, 1, 2, 3, 4, 5] []).2).1,
       (runChunks botName sessionId traces [6]
         (runChunks botName sessionId traces [0, 1, 2, 3, 4, 5] []).2).2) := by
    have hsplit : List.range TEST_CHUNKS.length = [0, 1, 2, 3, 4, 5] ++ [6] := rfl
    rw [hsplit]
    exact runChunks_append botName sessionId traces _ _ _
  have h6 := processChunk_last botName sessionId (traces 6)
      (runChunks botName sessionId traces [0, 1, 2, 3, 4, 5] []).2 6 chunk6 hc6 (by decide) hb6
  have hlast : runChunks botName sessionId traces [6]
      (runChunks botName sessionId traces [0, 1, 2, 3, 4, 5] []).2 =
      ((processChunk botName 6 sessionId (traces 6)
          (runChunks botName sessionId traces [0, 1, 2, 3, 4, 5] []).2).events ++ [],
       (processChunk botName 6 sessionId (traces 6)
          (runChunks botName sessionId traces [0, 1, 2, 3, 4, 5] []).2).store) := rfl
  refine ⟨?_, ?_, ?_⟩
  · obtain ⟨s1, h1⟩ := processChunk_store_mid botName sessionId (traces 0) [] 0 (by decide)
    rw [h1, Store.get_set_self]
    rfl
  · refine ⟨mkScorecard botName
        (applySteps chunk6.category (traces 6) chunk6.tests 0
          (sessionFor (runChunks botName sessionId traces [0, 1, 2, 3, 4, 5] []).2
            botName sessionId)), ?_⟩
    rw [hrun]
    simp only [hlast, h6]
    simp
  · rw [hrun]
    simp only [hlast, h6]
    simp [Store.get_del_self]

theorem session_created_then_deleted_witness :
    (Store.get (processChunk "TestBot" 0 "s1" (okTraces 0) []).store "s1").isSome = true ∧
    (∃ sc, ProgressUpdate.complete sc 100 "Analysis complete!" "s1" ∈
      (runChunks "TestBot" "s1" okTraces (List.range TEST_CHUNKS.length) []).1) ∧
    Store.get (runChunks "TestBot" "s1" okTraces (List.range TEST_CHUNKS.length) []).2
      "s1" = none :=
  session_created_then_deleted "TestBot" "s1" okTraces (by decide)

/-! ## C8: the profile page is fetched at most once per session -/

theorem execTestMetaEffect_cached (t : String) (f : ProfileFetch) (m : BotMetadata) :
    execTestMetaEffect t f (some m) = (0, some m) := by
  unfold execTestMetaEffect
  split
  · rfl
  · rfl

theorem runMetaTrace_cached (m : BotMetadata) :
    ∀ ts : List (String × ProfileFetch), runMetaTrace (some m) ts = (0, some m) := by
  intro ts
  induction ts with
  | nil => rfl
  | cons p rest ih =>
    obtain ⟨t, f⟩ := p
    simp [runMetaTrace, execTestMetaEffect_cached, ih]

theorem runMetaTrace_fetch_count_le_one :
    ∀ (ts : List (String × ProfileFetch)),
    (∀ p ∈ ts, p.2.isOk = true) → (runMetaTrace none ts).1 ≤ 1 := by
  intro ts
  induction ts with
  | nil => intro h; simp [runMetaTrace]
  | cons p rest ih =>
    intro h
    obtain ⟨t, f⟩ := p
    by_cases ht : t = "Fetch bot metadata"
    · cases f with
      | ok m' =>
        simp [runMetaTrace, execTestMetaEffect, ht, runMetaTrace_cached]
      | httpError st =>
        have hfalse := h (t, .httpError st) (by simp)
        simp [ProfileFetch.isOk] at hfalse
      | netError msg =>
        have hfalse := h (t, .netError msg) (by simp)
        simp [ProfileFetch.isOk] at hfalse
    · have hrec := ih (by intro p hp; exact h p (by simp [hp]))
      simpa [runMetaTrace, execTestMetaEffect, ht] using hrec

/-- C8 (confirmed).  Within one session the bot's profile page is
fetched at most once: once the metadata cache holds `some m`, any further
sequence of checks performs zero profile fetches and leaves the cache at
`some m` (every subsequent check and chunk reuses the stored metadata); and
a whole session starting from an empty cache, whose fetch attempts succeed,
performs at most one profile fetch in total — the cache is populated
lazily by the first `Fetch bot metadata` check. -/
theorem metadata_fetched_at_most_once
    (ts : List (String × ProfileFetch)) (m : BotMetadata)
    (hok : ∀ p ∈ ts, p.2.isOk = true) :
    (runMetaTrace (some m) ts).1 = 0 ∧
    (runMetaTrace (some m) ts).2 = some m ∧
    (runMetaTrace none ts).1 ≤ 1 := by
  refine ⟨?_, ?_, runMetaTrace_fetch_count_le_one ts hok⟩
  · rw [runMetaTrace_cached]
  · rw [runMetaTrace_cached]

theorem metadata_fetched_at_most_once_witness :
    (runMetaTrace (some mdum) metaTrace).1 = 0 ∧
    (runMetaTrace (some mdum) metaTrace).2 = some mdum ∧
    (runMetaTrace none metaTrace).1 ≤ 1 :=
  metadata_fetched_at_most_once metaTrace mdum (by decide)

end PoeBot
